import Mathlib

/-
  Verification of the optimizer repository (trust-region method with a
  preconditioned conjugate-gradient inner solver).

  Embedded sources:
    - src/optimizer/pcg.py                       (function _implimentation)
    - src/optimizer/trust_region.py              (function trust_region and helpers)
    - src/optimizer/_internals/trust_region/options.py

  Floating-point numbers are modelled as exact rationals.  External
  collaborators (objective, make_gradient, make_hessian, the pcg wrapper as
  seen from the driver) are uninterpreted function parameters.  The external
  feasibility predicate linneq.check is modelled from the spec.
-/

namespace Optimizer

/-! ## Vector helpers (exact-rational rendering of the numpy expressions) -/

/-- Elementwise sum of two vectors (numpy a + b). -/
def vecAdd (a b : List ℚ) : List ℚ := List.zipWith (fun x y => x + y) a b

/-- Elementwise difference of two vectors (numpy a - b). -/
def vecSub (a b : List ℚ) : List ℚ := List.zipWith (fun x y => x - y) a b

/-- Elementwise quotient of two vectors (numpy a / b). -/
def vecDiv (a b : List ℚ) : List ℚ := List.zipWith (fun x y => x / y) a b

/-- Scalar times vector (numpy c * v). -/
def smul (c : ℚ) (v : List ℚ) : List ℚ := v.map (fun t => c * t)

/-- Inner product (numpy a @ b). -/
def dot (a b : List ℚ) : ℚ := (List.zipWith (fun x y => x * y) a b).sum

/-- Matrix-vector product (numpy A @ v), the matrix given as a list of rows. -/
def matVec (A : List (List ℚ)) (v : List ℚ) : List ℚ := A.map (fun row => dot row v)

/-- Largest absolute value of the entries (numpy.max(numpy.abs(v)) for a
nonempty v; the fold basis 0 is never the answer on the nonempty vectors the
code applies it to, since absolute values are nonnegative). -/
def maxAbs (v : List ℚ) : ℚ := (v.map (fun t => |t|)).foldr max 0

/-- Exact rendering of the comparison numpy.linalg.norm(v) > delta: the
Euclidean norm exceeds delta iff delta is negative or delta squared is
exceeded by the dot product of v with itself. -/
def norm_gt (delta : ℚ) (v : List ℚ) : Prop := delta < 0 ∨ delta ^ 2 < dot v v

instance (delta : ℚ) (v : List ℚ) : Decidable (norm_gt delta v) := by
  unfold norm_gt
  exact inferInstance

/-! ## Constraints and the feasibility predicate -/

/-- The constraint bundle (A, b, lb, ub): A x <= b, lb <= x <= ub. -/
structure Constraints where
  A : List (List ℚ)
  b : List ℚ
  lb : List ℚ
  ub : List ℚ
deriving DecidableEq

/-- Elementwise comparison u <= v over the common length. -/
def leAll (u v : List ℚ) : Bool :=
  (List.zipWith (fun x y => decide (x ≤ y)) u v).all (fun t => t)

/-- Modelled from the spec: the external feasibility predicate
linneq.check(p, (A, b, lb, ub)) of the numerical package holds iff
A p <= b, lb <= p and p <= ub, elementwise. -/
def check (p : List ℚ) (c : Constraints) : Bool :=
  leAll (matVec c.A p) c.b && leAll c.lb p && leAll p c.ub

/-- The shifted constraint bundle built in get_info
(src/optimizer/trust_region.py lines 117-119):
(A, b - A @ x, lb - x, ub - x). -/
def shiftConstraints (c : Constraints) (x : List ℚ) : Constraints :=
  ⟨c.A, vecSub c.b (matVec c.A x), vecSub c.lb x, vecSub c.ub x⟩

/-! ## PCG inner solver (src/optimizer/pcg.py, _implimentation) -/

/-- The exit flags of the PCG subsystem. -/
inductive PCG_Flag where
  | RESIDUAL_CONVERGENCE
  | NEGATIVE_CURVATURE
  | OUT_OF_TRUST_REGION
  | VIOLATE_CONSTRAINTS
  | POLICY_ONLY
deriving DecidableEq

/-- The 4-tuple returned by _implimentation. -/
structure PCGResult where
  p : List ℚ
  direct : Option (List ℚ)
  iter : ℕ
  flag : PCG_Flag
deriving DecidableEq

/-- sqrt of the float64 machine epsilon: eps = 2 ^ (-52), so sqrt eps is
exactly 2 ^ (-26), representable as a rational. -/
def sqrtEps : ℚ := 1 / 2 ^ 26

/-- The body of the for-loop of _implimentation (src/optimizer/pcg.py lines
109-147), with the loop counter made explicit.  fuel is the number of
remaining loop passes; iter is the value the loop variable would take in the
current pass.  When the loop is exhausted, the Python return statement reads
the loop variable, which still holds the index of the last pass, namely
iter - 1 here; if the loop never ran (n = 0) the name is unbound and the
return raises NameError, modelled as none. -/
def pcgLoop (H : List (List ℚ)) (R : List ℚ) (c : Constraints) (delta : ℚ)
    (p r z direct : List ℚ) (inner1 : ℚ) (iter fuel : ℕ) : Option PCGResult :=
  match fuel with
  | 0 =>
      if iter = 0 then none
      else some ⟨p, none, iter - 1, PCG_Flag.RESIDUAL_CONVERGENCE⟩
  | Nat.succ fuel =>
      -- residual convergence test
      if maxAbs z < sqrtEps then some ⟨p, none, iter, PCG_Flag.RESIDUAL_CONVERGENCE⟩
      else
        -- negative curvature test
        let ww := matVec H direct
        let denom := dot direct ww
        if denom ≤ 0 then some ⟨p, some direct, iter, PCG_Flag.NEGATIVE_CURVATURE⟩
        else
          -- trial point
          let alpha := inner1 / denom
          let pnew := vecAdd p (smul alpha direct)
          -- trial point outside the trust region
          if norm_gt delta pnew then
            some ⟨p, some direct, iter, PCG_Flag.OUT_OF_TRUST_REGION⟩
          -- trial point violates the constraints (the reshape around the call
          -- to check does not change the vector)
          else if check pnew c = false then
            some ⟨p, some direct, iter, PCG_Flag.VIOLATE_CONSTRAINTS⟩
          else
            -- accept the trial point, update residual and search direction
            let rn := vecSub r (smul alpha ww)
            let zn := vecDiv rn R
            let inner2 := inner1
            let inner1n := dot rn zn
            let beta := inner1n / inner2
            let directn := vecAdd zn (smul beta direct)
            pcgLoop H R c delta pnew rn zn directn inner1n (iter + 1) fuel

/-- src/optimizer/pcg.py lines 101-147: the PCG inner solver _implimentation.
Returns none exactly when the Python function would raise (n = 0, where the
post-loop return reads an unbound loop variable). -/
def _implimentation (g : List ℚ) (H : List (List ℚ)) (R : List ℚ)
    (c : Constraints) (delta : ℚ) : Option PCGResult :=
  let n := g.length
  let p := List.replicate n (0 : ℚ)
  let r := g.map (fun t => -t)
  let z := vecDiv r R
  let direct := z
  let inner1 := dot r z
  pcgLoop H R c delta p r z direct inner1 0 n

/-! ## Trust-region driver (src/optimizer/trust_region.py) -/

/-- Modelled from the spec: the Gradient bundle built by the external
make_gradient (grad_maker is not under src/): the gradient vector and its
infinity norm. -/
structure Gradient where
  value : List ℚ
  infnorm : ℚ
deriving DecidableEq

/-- The PCG_Status value the driver receives from the pcg wrapper
(src/optimizer/pcg.py, class PCG_Status): optional step x, optional model
value fval, iteration count, exit flag, and the cached Euclidean norm size
(present iff the step is present; its exact value is irrational in general,
so the driver model takes it as part of the oracle answer). -/
structure PCG_Status where
  x : Option (List ℚ)
  fval : Option ℚ
  iter : ℕ
  flag : PCG_Flag
  size : Option ℚ
deriving DecidableEq

/-- src/optimizer/trust_region.py, class Trust_Region_Result. -/
structure Trust_Region_Result where
  x : List ℚ
  iter : ℕ
  delta : ℚ
  gradient : Gradient
  success : Bool
deriving DecidableEq

/-- src/optimizer/_internals/trust_region/options.py, class
Trust_Region_Options.  The shaking option is the tagged variant
(none = the literal sentinel meaning the dimension of x, some k = an
explicit integer). -/
structure Trust_Region_Options where
  border_abstol : ℚ := 1 / 10 ^ 10
  tol_step : ℚ := 1 / 10 ^ 10
  tol_grad : ℚ := 1 / 10 ^ 6
  abstol_fval : Option ℚ := none
  max_stall_iter : Option ℕ := none
  init_delta : ℚ := 1
  max_iter : ℕ
  check_rel : ℚ := 1 / 10 ^ 2
  check_abs : Option ℚ := none
  check_iter : Option ℤ := none
  shaking : Option ℕ := none
  display : Bool := true
deriving DecidableEq

/-- The external collaborators of the driver, as uninterpreted functions:
the objective, the external gradient estimator make_gradient (its gradient
check arguments only govern assertions internal to the external estimator
and are dropped), the external finite-difference make_hessian, and the pcg
wrapper as the driver sees it (arguments: gradient value, H, shifted
constraints, delta). -/
structure Oracles where
  objective : List ℚ → ℚ
  makeGradient : List ℚ → Gradient
  makeHessian : List ℚ → List (List ℚ)
  pcg : List ℚ → List (List ℚ) → Constraints → ℚ → PCG_Status

/-- The mutable locals of trust_region, threaded explicitly. -/
structure DriverState where
  x : List ℚ
  fval : ℚ
  grad : Gradient
  H : List (List ℚ)
  _constr_shifted : Constraints
  delta : ℚ
  iter : ℕ
  hessian_is_up_to_date : Bool
  times_after_hessian_shaking : ℕ
  old_fval : ℚ
  stall_iter : ℕ
deriving DecidableEq

/-- The effect of a successful call of make_hess on the nonlocals it
assigns. -/
structure HessUpdate where
  H : List (List ℚ)
  hessian_is_up_to_date : Bool
  times_after_hessian_shaking : ℕ
deriving DecidableEq

/-- src/optimizer/trust_region.py lines 121-127, the closure make_hess:
asserts that the Hessian is stale (none models the assertion firing),
recomputes H at x, marks it up to date and zeroes the shaking counter. -/
def make_hess (o : Oracles) (x : List ℚ) (hessian_is_up_to_date : Bool) :
    Option HessUpdate :=
  if hessian_is_up_to_date then none
  else some ⟨o.makeHessian x, true, 0⟩

/-- src/optimizer/trust_region.py lines 187-193: the reduction ratio.
Source text: 0 if reduce >= 0 else (1 if reduce <= pcg_status.fval else
reduce / pcg_status.fval). -/
def ratioValue (reduce sfval : ℚ) : ℚ :=
  if 0 ≤ reduce then 0
  else if reduce ≤ sfval then 1
  else reduce / sfval

/-- Outcome of one pass of the main while-loop. -/
inductive BodyResult where
  | hessFail
  | statusFail
  | finished (res : Trust_Region_Result) (final : DriverState)
  | next (s : DriverState)
deriving DecidableEq

/-- The stall-success check at the bottom of the loop
(src/optimizer/trust_region.py lines 223-228). -/
def stallCheck (o : Oracles) (opts : Trust_Region_Options) (s : DriverState) :
    BodyResult :=
  match opts.max_stall_iter with
  | none => BodyResult.next s
  | some m =>
      if m ≤ s.stall_iter then
        if s.hessian_is_up_to_date then
          BodyResult.finished ⟨s.x, s.iter, s.delta, s.grad, true⟩ s
        else
          match make_hess o s.x s.hessian_is_up_to_date with
          | none => BodyResult.hessFail
          | some hu =>
              BodyResult.next { s with
                H := hu.H,
                hessian_is_up_to_date := hu.hessian_is_up_to_date,
                times_after_hessian_shaking := hu.times_after_hessian_shaking }
      else BodyResult.next s

/-- The residual-convergence success check
(src/optimizer/trust_region.py lines 214-222), falling through to the stall
check; ssize is the size field of the pcg status. -/
def convergenceCheck (o : Oracles) (opts : Trust_Region_Options) (ssize : ℚ)
    (flag : PCG_Flag) (s : DriverState) : BodyResult :=
  if flag = PCG_Flag.RESIDUAL_CONVERGENCE then
    if s.hessian_is_up_to_date then
      if s.grad.infnorm < opts.tol_grad then
        BodyResult.finished ⟨s.x, s.iter, s.delta, s.grad, true⟩ s
      else if ssize < opts.tol_step then
        BodyResult.finished ⟨s.x, s.iter, s.delta, s.grad, true⟩ s
      else stallCheck o opts s
    else
      match make_hess o s.x s.hessian_is_up_to_date with
      | none => BodyResult.hessFail
      | some hu =>
          stallCheck o opts { s with
            H := hu.H,
            hessian_is_up_to_date := hu.hessian_is_up_to_date,
            times_after_hessian_shaking := hu.times_after_hessian_shaking }
  else stallCheck o opts s

/-- The no-step branch (src/optimizer/trust_region.py lines 164-178): the
pcg wrapper produced no step; shrink the radius when the Hessian is fresh,
recompute it through make_hess when it is stale, then continue the loop. -/
def noStepBranch (o : Oracles) (s2 : DriverState) : BodyResult :=
  if s2.hessian_is_up_to_date then
    BodyResult.next { s2 with delta := s2.delta / 4 }
  else
    match make_hess o s2.x s2.hessian_is_up_to_date with
    | none => BodyResult.hessFail
    | some hu =>
        BodyResult.next { s2 with
          H := hu.H,
          hessian_is_up_to_date := hu.hessian_is_up_to_date,
          times_after_hessian_shaking := hu.times_after_hessian_shaking }

/-- The radius update (src/optimizer/trust_region.py lines 194-200), given
the computed ratio and the pcg step norm ssize: double on an excellent,
near-boundary step; on a poor ratio, shrink when the Hessian is fresh and
recompute it through make_hess (none models its assertion firing) when
stale. -/
def radiusUpdate (o : Oracles) (ratio ssize : ℚ) (s2 : DriverState) :
    Option DriverState :=
  if 3 / 4 ≤ ratio ∧ 9 / 10 * s2.delta ≤ ssize then
    some { s2 with delta := 2 * s2.delta }
  else if ratio ≤ 1 / 4 then
    if s2.hessian_is_up_to_date then
      some { s2 with delta := ssize / 4 }
    else
      (make_hess o s2.x s2.hessian_is_up_to_date).map (fun hu =>
        { s2 with
          H := hu.H,
          hessian_is_up_to_date := hu.hessian_is_up_to_date,
          times_after_hessian_shaking := hu.times_after_hessian_shaking })
  else some s2

/-- The acceptance step (src/optimizer/trust_region.py lines 202-210): on a
descending candidate, move to it, mark the Hessian stale, rebuild the
gradient and the shifted constraints at the new point through get_info, and
run the stall detector (the Python else arm resets old_fval and stall_iter
also when abstol_fval is unset). -/
def acceptStep (o : Oracles) (opts : Trust_Region_Options)
    (constr : Constraints) (new_x : List ℚ) (new_fval : ℚ)
    (s3 : DriverState) : DriverState :=
  if new_fval < s3.fval then
    match opts.abstol_fval with
    | some tol =>
        if s3.old_fval - new_fval < tol then
          { s3 with
            x := new_x, fval := new_fval, hessian_is_up_to_date := false,
            grad := o.makeGradient new_x,
            _constr_shifted := shiftConstraints constr new_x,
            stall_iter := s3.stall_iter + 1 }
        else
          { s3 with
            x := new_x, fval := new_fval, hessian_is_up_to_date := false,
            grad := o.makeGradient new_x,
            _constr_shifted := shiftConstraints constr new_x,
            old_fval := new_fval, stall_iter := 0 }
    | none =>
        { s3 with
          x := new_x, fval := new_fval, hessian_is_up_to_date := false,
          grad := o.makeGradient new_x,
          _constr_shifted := shiftConstraints constr new_x,
          old_fval := new_fval, stall_iter := 0 }
  else s3

/-- The candidate-step path (src/optimizer/trust_region.py lines 181-228):
the Python locals new_x = x + p and new_fval = objective(new_x) are written
out in place, reduce = new_fval - fval feeds the ratio, then the radius
update, the acceptance step and the success checks run in order. -/
def candidateBranch (o : Oracles) (opts : Trust_Region_Options)
    (constr : Constraints) (flag : PCG_Flag) (px : List ℚ)
    (sfval ssize : ℚ) (s2 : DriverState) : BodyResult :=
  match radiusUpdate o
      (ratioValue (o.objective (vecAdd s2.x px) - s2.fval) sfval) ssize s2 with
  | none => BodyResult.hessFail
  | some s3 =>
      convergenceCheck o opts ssize flag
        (acceptStep o opts constr (vecAdd s2.x px)
          (o.objective (vecAdd s2.x px)) s3)

/-- Dispatch on the pcg status (src/optimizer/trust_region.py lines
164-184): the no-step branch when x is absent; otherwise the asserts that
fval and size are present (statusFail models either assert firing) and the
candidate path. -/
def afterPCG (o : Oracles) (opts : Trust_Region_Options)
    (constr : Constraints) (status : PCG_Status) (s2 : DriverState) :
    BodyResult :=
  match status.x with
  | none => noStepBranch o s2
  | some px =>
      match status.fval, status.size with
      | some sfval, some ssize =>
          candidateBranch o opts constr status.flag px sfval ssize s2
      | _, _ => BodyResult.statusFail

/-- One pass of the main while-loop of trust_region
(src/optimizer/trust_region.py lines 144-228).  constr is the closed-over
original constraint bundle (used by get_info to rebuild the shifted bundle);
the output sink calls are pure side channels and are omitted. -/
def trBody (o : Oracles) (opts : Trust_Region_Options) (hessian_shaking : ℕ)
    (constr : Constraints) (s0 : DriverState) : BodyResult :=
  -- failure terminations, checked first
  if s0.delta < opts.tol_step then
    BodyResult.finished ⟨s0.x, s0.iter, s0.delta, s0.grad, false⟩ s0
  else if opts.max_iter < s0.iter then
    BodyResult.finished ⟨s0.x, s0.iter, s0.delta, s0.grad, false⟩ s0
  else
    -- deferred Hessian refresh
    match (if hessian_shaking ≤ s0.times_after_hessian_shaking ∧
              s0.hessian_is_up_to_date = false then
             (make_hess o s0.x s0.hessian_is_up_to_date).map (fun hu =>
               { s0 with
                 H := hu.H,
                 hessian_is_up_to_date := hu.hessian_is_up_to_date,
                 times_after_hessian_shaking := hu.times_after_hessian_shaking })
           else some s0) with
    | none => BodyResult.hessFail
    | some s1 =>
      -- PCG call, then iteration and shaking counters are bumped
      afterPCG o opts constr (o.pcg s1.grad.value s1.H s1._constr_shifted s1.delta)
        { s1 with
          iter := s1.iter + 1,
          times_after_hessian_shaking := s1.times_after_hessian_shaking + 1 }

/-- Outcome of a bounded run of the main loop. -/
inductive RunResult where
  | hessFail
  | statusFail
  | inputFail
  | outOfFuel (s : DriverState)
  | finished (res : Trust_Region_Result) (final : DriverState)
deriving DecidableEq

/-- Iterate trBody.  Every pass increments iter, so max_iter + 2 passes
always suffice; fuel only bounds the recursion. -/
def trRun (o : Oracles) (opts : Trust_Region_Options) (hessian_shaking : ℕ)
    (constr : Constraints) : ℕ → DriverState → RunResult
  | 0, s => RunResult.outOfFuel s
  | Nat.succ fuel, s =>
      match trBody o opts hessian_shaking constr s with
      | BodyResult.hessFail => RunResult.hessFail
      | BodyResult.statusFail => RunResult.statusFail
      | BodyResult.finished res final => RunResult.finished res final
      | BodyResult.next s1 => trRun o opts hessian_shaking constr fuel s1

/-- src/optimizer/trust_region.py lines 88-228, the function trust_region:
resolve the shaking threshold, assert feasibility of the start point,
initialize the state (the initial make_hess runs with a stale flag) and
enter the main loop. -/
def trust_region (o : Oracles) (opts : Trust_Region_Options) (x0 : List ℚ)
    (constr : Constraints) (fuel : ℕ) : RunResult :=
  let hessian_shaking := match opts.shaking with
                         | none => x0.length
                         | some k => k
  if check x0 constr = false then RunResult.inputFail
  else
    match make_hess o x0 false with
    | none => RunResult.hessFail
    | some hu =>
        let fval := o.objective x0
        let grad := o.makeGradient x0
        trRun o opts hessian_shaking constr fuel
          { x := x0,
            fval := fval,
            grad := grad,
            H := hu.H,
            _constr_shifted := shiftConstraints constr x0,
            delta := opts.init_delta,
            iter := 0,
            hessian_is_up_to_date := hu.hessian_is_up_to_date,
            times_after_hessian_shaking := hu.times_after_hessian_shaking,
            old_fval := fval,
            stall_iter := 0 }

/-! ## Concrete fixtures used by witnesses and counterexamples -/

/-- Bool observer: the run ended with the make_hess assertion firing. -/
def isHessFail : RunResult → Bool
  | RunResult.hessFail => true
  | _ => false

/-- A one-dimensional box -10 <= x <= 10 with no linear rows. -/
def cBox : Constraints := ⟨[], [], [-10], [10]⟩

/-- A one-dimensional box -1 <= x <= 1 with no linear rows. -/
def cUnit : Constraints := ⟨[], [], [-1], [1]⟩

/-- A bundle with one linear row, used by the C6 witness. -/
def cRow : Constraints := ⟨[[1]], [5], [0], [4]⟩

/-- Options with the defaults and max_iter = 100. -/
def opts100 : Trust_Region_Options := { max_iter := 100 }

/-- Oracles whose pcg wrapper reports the zero step with residual
convergence and a zero gradient estimate. -/
def oracleZero : Oracles :=
  ⟨fun _ => 0, fun _ => ⟨[0], 0⟩, fun _ => [[1]],
   fun _ _ _ _ => ⟨some [0], some 0, 0, PCG_Flag.RESIDUAL_CONVERGENCE, some 0⟩⟩

/-- Oracles whose pcg wrapper reports no step. -/
def oracleNoStep : Oracles :=
  ⟨fun _ => 0, fun _ => ⟨[0], 1⟩, fun _ => [[1]],
   fun _ _ _ _ => ⟨none, none, 0, PCG_Flag.RESIDUAL_CONVERGENCE, none⟩⟩

/-- A loop state with a stale Hessian and shaking counter 5. -/
def sStale : DriverState :=
  ⟨[0], 0, ⟨[0], 1⟩, [[2]], cUnit, 1, 0, false, 5, 0, 0⟩

/-- The state the code reaches from sStale through the no-step stale branch:
iter bumped, H recomputed, flag set, counter reset to zero by make_hess. -/
def sStaleNext : DriverState :=
  ⟨[0], 0, ⟨[0], 1⟩, [[1]], cUnit, 1, 1, true, 0, 0, 0⟩

/-- The state the spec sentence predicts instead: the same but with the
shaking counter keeping its incremented value 6. -/
def sStaleSpec : DriverState :=
  ⟨[0], 0, ⟨[0], 1⟩, [[1]], cUnit, 1, 1, true, 6, 0, 0⟩

/-- A loop state whose radius is already below tol_step. -/
def sTiny : DriverState :=
  ⟨[0], 0, ⟨[0], 1⟩, [[1]], cUnit, 0, 0, true, 0, 0, 0⟩

/-- The failure result returned from sTiny. -/
def resTiny : Trust_Region_Result := ⟨[0], 0, 0, ⟨[0], 1⟩, false⟩

/-- The successful result of the one-pass run of trust_region with
oracleZero from the origin. -/
def resZero : Trust_Region_Result := ⟨[0], 1, 0, ⟨[0], 0⟩, true⟩

/-- The state at the instant of that successful return. -/
def stZero : DriverState :=
  ⟨[0], 0, ⟨[0], 0⟩, [[1]], ⟨[], [], [-1], [1]⟩, 0, 1, true, 1, 0, 0⟩

/-! ## Shifted-constraint algebra (claim C6) -/

theorem leAll_shift_right : ∀ u w b : List ℚ,
    leAll (vecAdd u w) b = leAll w (vecSub b u) := by
  intro u
  induction u with
  | nil => intro w b; cases w <;> cases b <;> simp [vecAdd, vecSub, leAll]
  | cons a u ih =>
      intro w b
      cases w with
      | nil => cases b <;> simp [vecAdd, vecSub, leAll]
      | cons c w =>
          cases b with
          | nil => simp [vecAdd, vecSub, leAll]
          | cons d b =>
              have ih2 := ih w b
              rw [Bool.eq_iff_iff] at ih2 ⊢
              simp only [vecAdd, vecSub, leAll, List.zipWith_cons_cons,
                List.all_cons, Bool.and_eq_true, decide_eq_true_eq] at ih2 ⊢
              constructor
              · rintro ⟨h1, h2⟩; exact ⟨by linarith, ih2.mp h2⟩
              · rintro ⟨h1, h2⟩; exact ⟨by linarith, ih2.mpr h2⟩

theorem leAll_shift_left : ∀ l x p : List ℚ,
    leAll l (vecAdd x p) = leAll (vecSub l x) p := by
  intro l
  induction l with
  | nil => intro x p; cases x <;> cases p <;> simp [vecAdd, vecSub, leAll]
  | cons a l ih =>
      intro x p
      cases x with
      | nil => cases p <;> simp [vecAdd, vecSub, leAll]
      | cons c x =>
          cases p with
          | nil => simp [vecAdd, vecSub, leAll]
          | cons d p =>
              have ih2 := ih x p
              rw [Bool.eq_iff_iff] at ih2 ⊢
              simp only [vecAdd, vecSub, leAll, List.zipWith_cons_cons,
                List.all_cons, Bool.and_eq_true, decide_eq_true_eq] at ih2 ⊢
              constructor
              · rintro ⟨h1, h2⟩; exact ⟨by linarith, ih2.mp h2⟩
              · rintro ⟨h1, h2⟩; exact ⟨by linarith, ih2.mpr h2⟩

theorem dot_vecAdd : ∀ (row x p : List ℚ), x.length = p.length →
    dot row (vecAdd x p) = dot row x + dot row p := by
  intro row
  induction row with
  | nil => intro x p _; simp [dot]
  | cons a row ih =>
      intro x p h
      cases x with
      | nil =>
          cases p with
          | nil => simp [dot, vecAdd]
          | cons c p => simp at h
      | cons c x =>
          cases p with
          | nil => simp at h
          | cons d p =>
              simp only [List.length_cons, Nat.succ.injEq] at h
              have ih2 := ih x p h
              simp only [vecAdd, dot, List.zipWith_cons_cons, List.sum_cons] at ih2 ⊢
              rw [ih2]; ring

theorem matVec_vecAdd (A : List (List ℚ)) (x p : List ℚ)
    (h : x.length = p.length) :
    matVec A (vecAdd x p) = vecAdd (matVec A x) (matVec A p) := by
  induction A with
  | nil => simp [matVec, vecAdd]
  | cons row A ih =>
      have hd := dot_vecAdd row x p h
      simp only [vecAdd] at hd
      simp only [matVec, List.map_cons, vecAdd, List.zipWith_cons_cons] at ih ⊢
      rw [hd]
      exact List.cons_eq_cons.mpr ⟨rfl, ih⟩

/-- C6: feasibility of x + p in the original bundle coincides with
feasibility of p in the shifted bundle (A, b - A x, lb - x, ub - x) built by
get_info. -/
theorem shifted_bundle_equiv (c : Constraints) (x p : List ℚ)
    (h : p.length = x.length) :
    check (vecAdd x p) c = check p (shiftConstraints c x) := by
  unfold check shiftConstraints
  rw [matVec_vecAdd c.A x p h.symm, leAll_shift_right (matVec c.A x) (matVec c.A p) c.b,
    leAll_shift_left c.lb x p, leAll_shift_right x p c.ub]

/-- C6 witness: the equivalence evaluated on a concrete bundle, point and
step. -/
theorem shifted_bundle_equiv_witness :
    ([2] : List ℚ).length = ([1] : List ℚ).length ∧
      check (vecAdd [1] [2]) cRow = check [2] (shiftConstraints cRow [1]) :=
  ⟨rfl, shifted_bundle_equiv cRow [1] [2] rfl⟩

/-! ## The reduction ratio (claim C7) -/

/-- C7: the computed ratio is 0 when the candidate does not descend, 1 when
the actual decrease is at least the (negative) predicted model value, and
the quotient of actual by predicted otherwise. -/
theorem ratioValue_cases (reduce sfval : ℚ) :
    (0 ≤ reduce → ratioValue reduce sfval = 0) ∧
      (reduce < 0 → reduce ≤ sfval → ratioValue reduce sfval = 1) ∧
      (reduce < 0 → sfval < reduce → ratioValue reduce sfval = reduce / sfval) := by
  refine ⟨fun h => ?_, fun h1 h2 => ?_, fun h1 h2 => ?_⟩
  · simp [ratioValue, h]
  · simp [ratioValue, h2, not_le.mpr h1]
  · simp [ratioValue, not_le.mpr h1, not_le.mpr h2]

/-- C7 witness: the three clauses evaluated at concrete inputs. -/
theorem ratioValue_cases_witness :
    ratioValue 3 (-2) = 0 ∧ ratioValue (-3) (-2) = 1 ∧
      ratioValue (-1) (-2) = (-1) / (-2) :=
  ⟨(ratioValue_cases 3 (-2)).1 (by norm_num),
   (ratioValue_cases (-3) (-2)).2.1 (by norm_num) (by norm_num),
   (ratioValue_cases (-1) (-2)).2.2 (by norm_num) (by norm_num)⟩

/-! ## PCG inner-solver invariants (claims C1, C2, C5, C9) -/

theorem dot_replicate_zero_left : ∀ (n : ℕ) (v : List ℚ),
    dot (List.replicate n 0) v = 0 := by
  intro n
  induction n with
  | zero => intro v; simp [dot]
  | succ m ih =>
      intro v
      cases v with
      | nil => simp [dot]
      | cons a v => simp [dot, List.replicate_succ] at ih ⊢; exact ih v

/-- The accepted point always stays inside the trust region: the loop keeps
the invariant dot p p <= delta squared. -/
theorem pcgLoop_norm_inv (H : List (List ℚ)) (R : List ℚ) (c : Constraints)
    (delta : ℚ) :
    ∀ (fuel : ℕ) (p r z direct : List ℚ) (inner1 : ℚ) (iter : ℕ)
      (out : PCGResult),
      dot p p ≤ delta ^ 2 →
      pcgLoop H R c delta p r z direct inner1 iter fuel = some out →
      dot out.p out.p ≤ delta ^ 2 := by
  intro fuel
  induction fuel with
  | zero =>
      intro p r z direct inner1 iter out hp h
      simp only [pcgLoop] at h
      split at h
      · exact absurd h (by simp)
      · rw [Option.some.injEq] at h
        rw [← h]
        exact hp
  | succ n ih =>
      intro p r z direct inner1 iter out hp h
      simp only [pcgLoop] at h
      split at h
      · rw [Option.some.injEq] at h; rw [← h]; exact hp
      · split at h
        · rw [Option.some.injEq] at h; rw [← h]; exact hp
        · split at h
          · rw [Option.some.injEq] at h; rw [← h]; exact hp
          · rename_i hnorm
            split at h
            · rw [Option.some.injEq] at h; rw [← h]; exact hp
            · have hnew := (not_or.mp hnorm).2
              exact ih _ _ _ _ _ _ out (not_lt.mp hnew) h

/-- C1: whenever the PCG inner solver returns, the returned step p lies
inside the trust region (dot p p <= delta squared renders the Euclidean
comparison exactly over the rationals, given delta > 0). -/
theorem pcg_step_within_radius (g : List ℚ) (H : List (List ℚ)) (R : List ℚ)
    (c : Constraints) (delta : ℚ) (out : PCGResult) (hdelta : 0 < delta)
    (h : _implimentation g H R c delta = some out) :
    dot out.p out.p ≤ delta ^ 2 := by
  simp only [_implimentation] at h
  refine pcgLoop_norm_inv H R c delta g.length _ _ _ _ _ 0 out ?_ h
  rw [dot_replicate_zero_left]
  exact sq_nonneg delta

unseal Rat.add Rat.sub Rat.mul Rat.inv in
/-- C1 witness: a run of one full accepted step returning p = [-1] with
delta = 2. -/
theorem pcg_step_within_radius_witness :
    (0 : ℚ) < 2 ∧
      dot [-1] [-1] ≤ (2 : ℚ) ^ 2 :=
  ⟨by norm_num,
   pcg_step_within_radius [1] [[1]] [1] cBox 2
     ⟨[-1], none, 0, PCG_Flag.RESIDUAL_CONVERGENCE⟩ (by norm_num) (by decide)⟩

/-- The accepted point always stays feasible: the loop keeps the invariant
check p c = true. -/
theorem pcgLoop_check_inv (H : List (List ℚ)) (R : List ℚ) (c : Constraints)
    (delta : ℚ) :
    ∀ (fuel : ℕ) (p r z direct : List ℚ) (inner1 : ℚ) (iter : ℕ)
      (out : PCGResult),
      check p c = true →
      pcgLoop H R c delta p r z direct inner1 iter fuel = some out →
      check out.p c = true := by
  intro fuel
  induction fuel with
  | zero =>
      intro p r z direct inner1 iter out hp h
      simp only [pcgLoop] at h
      split at h
      · exact absurd h (by simp)
      · rw [Option.some.injEq] at h; rw [← h]; exact hp
  | succ n ih =>
      intro p r z direct inner1 iter out hp h
      simp only [pcgLoop] at h
      split at h
      · rw [Option.some.injEq] at h; rw [← h]; exact hp
      · split at h
        · rw [Option.some.injEq] at h; rw [← h]; exact hp
        · split at h
          · rw [Option.some.injEq] at h; rw [← h]; exact hp
          · split at h
            · rw [Option.some.injEq] at h; rw [← h]; exact hp
            · rename_i hcheck
              exact ih _ _ _ _ _ _ out (Bool.eq_true_of_not_eq_false hcheck) h

/-- C2: if the shifted constraints accept the zero vector (the start point
of the solver), every returned step is feasible. -/
theorem pcg_step_feasible (g : List ℚ) (H : List (List ℚ)) (R : List ℚ)
    (c : Constraints) (delta : ℚ) (out : PCGResult)
    (h0 : check (List.replicate g.length 0) c = true)
    (h : _implimentation g H R c delta = some out) :
    check out.p c = true := by
  simp only [_implimentation] at h
  exact pcgLoop_check_inv H R c delta g.length _ _ _ _ _ 0 out h0 h

unseal Rat.add Rat.sub Rat.mul Rat.inv in
/-- C2 witness: the same concrete run, with the feasibility of the origin
checked and the returned step checked. -/
theorem pcg_step_feasible_witness :
    check (List.replicate ([1] : List ℚ).length 0) cBox = true ∧
      check [-1] cBox = true :=
  ⟨by decide,
   pcg_step_feasible [1] [[1]] [1] cBox 2
     ⟨[-1], none, 0, PCG_Flag.RESIDUAL_CONVERGENCE⟩ (by decide) (by decide)⟩

/-- The reported loop count is bounded: starting at index iter with fuel
passes remaining, any returned count is below iter + fuel. -/
theorem pcgLoop_iter_lt (H : List (List ℚ)) (R : List ℚ) (c : Constraints)
    (delta : ℚ) :
    ∀ (fuel : ℕ) (p r z direct : List ℚ) (inner1 : ℚ) (iter : ℕ)
      (out : PCGResult),
      0 < iter + fuel →
      pcgLoop H R c delta p r z direct inner1 iter fuel = some out →
      out.iter < iter + fuel := by
  intro fuel
  induction fuel with
  | zero =>
      intro p r z direct inner1 iter out hpos h
      simp only [pcgLoop] at h
      split at h
      · exact absurd h (by simp)
      · rename_i hiter
        rw [Option.some.injEq] at h
        rw [← h]
        simp only [Nat.add_zero] at hpos ⊢
        exact Nat.sub_lt (Nat.pos_of_ne_zero hiter) Nat.one_pos
  | succ n ih =>
      intro p r z direct inner1 iter out hpos h
      simp only [pcgLoop] at h
      have hlt : iter < iter + (n + 1) := by omega
      split at h
      · rw [Option.some.injEq] at h; rw [← h]; exact hlt
      · split at h
        · rw [Option.some.injEq] at h; rw [← h]; exact hlt
        · split at h
          · rw [Option.some.injEq] at h; rw [← h]; exact hlt
          · split at h
            · rw [Option.some.injEq] at h; rw [← h]; exact hlt
            · have := ih _ _ _ _ _ (iter + 1) out (by omega) h
              omega

/-- C5 amended: the reported iteration count of any return of the inner
solver is strictly below n = length g; in particular, the full-loop return
reports n - 1 (the final loop index), never n. -/
theorem pcg_loop_count_lt (g : List ℚ) (H : List (List ℚ)) (R : List ℚ)
    (c : Constraints) (delta : ℚ) (out : PCGResult) (hn : 0 < g.length)
    (h : _implimentation g H R c delta = some out) :
    out.iter < g.length := by
  simp only [_implimentation] at h
  have := pcgLoop_iter_lt H R c delta g.length _ _ _ _ _ 0 out (by omega) h
  omega

unseal Rat.add Rat.sub Rat.mul Rat.inv in
/-- C5 amended witness: the one-dimensional full run reports count 0 < 1. -/
theorem pcg_loop_count_lt_witness :
    0 < ([1] : List ℚ).length ∧
      (0 : ℕ) < ([1] : List ℚ).length :=
  ⟨by decide,
   pcg_loop_count_lt [1] [[1]] [1] cBox 2
     ⟨[-1], none, 0, PCG_Flag.RESIDUAL_CONVERGENCE⟩ (by decide) (by decide)⟩

unseal Rat.add Rat.sub Rat.mul Rat.inv in
/-- C5 counterexample: on g = [1], H = [[1]], R = [1], box -10 <= x <= 10
and delta = 2, the solver accepts a step in its only loop pass (the returned
p = [-1] is not the start point, so no early exit fired) and then returns
with iteration count 0, not n = 1 as the claim states. -/
theorem pcg_full_loop_count_counterexample :
    _implimentation [1] [[1]] [1] cBox 2 =
        some ⟨[-1], none, 0, PCG_Flag.RESIDUAL_CONVERGENCE⟩ ∧
      ¬ _implimentation [1] [[1]] [1] cBox 2 =
          some ⟨[-1], none, ([1] : List ℚ).length, PCG_Flag.RESIDUAL_CONVERGENCE⟩ :=
  ⟨by decide, by decide⟩

theorem maxAbs_vecDiv_zero : ∀ (g R : List ℚ), (∀ t ∈ g, t = 0) →
    maxAbs (vecDiv (g.map (fun t => -t)) R) = 0 := by
  intro g
  induction g with
  | nil => intro R _; cases R <;> simp [vecDiv, maxAbs]
  | cons a g ih =>
      intro R hz
      cases R with
      | nil => simp [vecDiv, maxAbs]
      | cons b R =>
          have ha : a = 0 := hz a (by simp)
          have ih2 := ih R (fun t ht => hz t (by simp [ht]))
          subst ha
          simp only [vecDiv, maxAbs, List.map_cons, List.zipWith_cons_cons,
            List.foldr_cons, neg_zero, zero_div, abs_zero] at ih2 ⊢
          simp [ih2]

/-- C9: on an all-zero gradient of positive dimension the inner solver exits
at the first residual check: it returns p = 0 with RESIDUAL_CONVERGENCE and
iteration count 0 (for any H, in particular any positive-definite H, and any
preconditioner diagonal R). -/
theorem pcg_zero_gradient (g : List ℚ) (H : List (List ℚ)) (R : List ℚ)
    (c : Constraints) (delta : ℚ) (hn : 0 < g.length)
    (hz : ∀ t ∈ g, t = 0) :
    _implimentation g H R c delta =
      some ⟨List.replicate g.length 0, none, 0, PCG_Flag.RESIDUAL_CONVERGENCE⟩ := by
  cases g with
  | nil => simp at hn
  | cons a g =>
      have hmax := maxAbs_vecDiv_zero (a :: g) R hz
      simp only [_implimentation, List.length_cons, pcgLoop]
      rw [hmax]
      have : (0 : ℚ) < sqrtEps := by norm_num [sqrtEps]
      simp [this]

unseal Rat.add Rat.sub Rat.mul Rat.inv in
/-- C9 witness: the zero gradient in one dimension. -/
theorem pcg_zero_gradient_witness :
    0 < ([0] : List ℚ).length ∧
      _implimentation [0] [[2]] [1] cBox 1 =
        some ⟨List.replicate ([0] : List ℚ).length 0, none, 0,
          PCG_Flag.RESIDUAL_CONVERGENCE⟩ :=
  ⟨by decide, pcg_zero_gradient [0] [[2]] [1] cBox 1 (by decide) (by decide)⟩

/-! ## Driver control-flow lemmas (claims C3, C4, C8, C10) -/

theorem make_hess_stale (o : Oracles) (x : List ℚ) :
    make_hess o x false = some ⟨o.makeHessian x, true, 0⟩ := rfl

theorem stallCheck_not_hessFail (o : Oracles) (opts : Trust_Region_Options)
    (s : DriverState) : ¬ stallCheck o opts s = BodyResult.hessFail := by
  unfold stallCheck
  split
  · simp
  · split
    · split
      · simp
      · rename_i hflag
        have hf : s.hessian_is_up_to_date = false := by
          cases hb : s.hessian_is_up_to_date
          · rfl
          · exact absurd hb hflag
        simp [hf, make_hess]
    · simp

theorem stallCheck_finished (o : Oracles) (opts : Trust_Region_Options)
    (s : DriverState) (res : Trust_Region_Result) (st : DriverState)
    (h : stallCheck o opts s = BodyResult.finished res st) :
    res = ⟨s.x, s.iter, s.delta, s.grad, true⟩ ∧ st = s ∧
      s.hessian_is_up_to_date = true := by
  unfold stallCheck at h
  split at h
  · simp at h
  · split at h
    · split at h
      · rename_i hflag
        rw [BodyResult.finished.injEq] at h
        exact ⟨h.1.symm, h.2.symm, hflag⟩
      · split at h
        · simp at h
        · simp at h
    · simp at h

theorem convergenceCheck_not_hessFail (o : Oracles)
    (opts : Trust_Region_Options) (ssize : ℚ) (flag : PCG_Flag)
    (s : DriverState) : ¬ convergenceCheck o opts ssize flag s = BodyResult.hessFail := by
  unfold convergenceCheck
  split
  · split
    · split
      · simp
      · split
        · simp
        · exact stallCheck_not_hessFail o opts s
    · rename_i hflag
      have hf : s.hessian_is_up_to_date = false := by
        cases hb : s.hessian_is_up_to_date
        · rfl
        · exact absurd hb hflag
      rw [hf, make_hess_stale]
      exact stallCheck_not_hessFail o opts _
  · exact stallCheck_not_hessFail o opts s

theorem convergenceCheck_finished (o : Oracles) (opts : Trust_Region_Options)
    (ssize : ℚ) (flag : PCG_Flag) (s : DriverState)
    (res : Trust_Region_Result) (st : DriverState)
    (h : convergenceCheck o opts ssize flag s = BodyResult.finished res st) :
    res.success = true ∧ st.hessian_is_up_to_date = true := by
  unfold convergenceCheck at h
  split at h
  · split at h
    · rename_i hflag
      split at h
      · rw [BodyResult.finished.injEq] at h
        rw [← h.1, ← h.2]
        exact ⟨rfl, hflag⟩
      · split at h
        · rw [BodyResult.finished.injEq] at h
          rw [← h.1, ← h.2]
          exact ⟨rfl, hflag⟩
        · obtain ⟨h1, h2, h3⟩ := stallCheck_finished o opts s res st h
          rw [h1, h2]
          exact ⟨rfl, h3⟩
    · rename_i hflag
      have hf : s.hessian_is_up_to_date = false := by
        cases hb : s.hessian_is_up_to_date
        · rfl
        · exact absurd hb hflag
      rw [hf, make_hess_stale] at h
      obtain ⟨h1, h2, h3⟩ := stallCheck_finished o opts _ res st h
      rw [h1, h2]
      exact ⟨rfl, h3⟩
  · obtain ⟨h1, h2, h3⟩ := stallCheck_finished o opts s res st h
    rw [h1, h2]
    exact ⟨rfl, h3⟩

theorem noStepBranch_not_hessFail (o : Oracles) (s2 : DriverState) :
    ¬ noStepBranch o s2 = BodyResult.hessFail := by
  unfold noStepBranch
  split
  · simp
  · rename_i hflag
    rw [Bool.not_eq_true] at hflag
    rw [hflag, make_hess_stale]
    simp

theorem noStepBranch_not_finished (o : Oracles) (s2 : DriverState)
    (res : Trust_Region_Result) (st : DriverState) :
    ¬ noStepBranch o s2 = BodyResult.finished res st := by
  unfold noStepBranch
  split
  · simp
  · rename_i hflag
    rw [Bool.not_eq_true] at hflag
    rw [hflag, make_hess_stale]
    simp

theorem radiusUpdate_ne_none (o : Oracles) (ratio ssize : ℚ)
    (s2 : DriverState) : ¬ radiusUpdate o ratio ssize s2 = none := by
  unfold radiusUpdate
  split
  · simp
  · split
    · split
      · simp
      · rename_i hflag
        rw [Bool.not_eq_true] at hflag
        rw [hflag, make_hess_stale]
        simp
    · simp

theorem candidateBranch_not_hessFail (o : Oracles)
    (opts : Trust_Region_Options) (constr : Constraints) (flag : PCG_Flag)
    (px : List ℚ) (sfval ssize : ℚ) (s2 : DriverState) :
    ¬ candidateBranch o opts constr flag px sfval ssize s2 = BodyResult.hessFail := by
  unfold candidateBranch
  split
  · rename_i heq
    exact absurd heq (radiusUpdate_ne_none o _ ssize s2)
  · exact convergenceCheck_not_hessFail o opts ssize flag _

theorem candidateBranch_finished (o : Oracles) (opts : Trust_Region_Options)
    (constr : Constraints) (flag : PCG_Flag) (px : List ℚ)
    (sfval ssize : ℚ) (s2 : DriverState) (res : Trust_Region_Result)
    (st : DriverState)
    (h : candidateBranch o opts constr flag px sfval ssize s2 =
      BodyResult.finished res st) :
    res.success = true ∧ st.hessian_is_up_to_date = true := by
  unfold candidateBranch at h
  split at h
  · simp at h
  · exact convergenceCheck_finished o opts ssize flag _ res st h

theorem afterPCG_not_hessFail (o : Oracles) (opts : Trust_Region_Options)
    (constr : Constraints) (status : PCG_Status) (s2 : DriverState) :
    ¬ afterPCG o opts constr status s2 = BodyResult.hessFail := by
  unfold afterPCG
  split
  · exact noStepBranch_not_hessFail o s2
  · split
    · exact candidateBranch_not_hessFail o opts constr status.flag _ _ _ s2
    · simp

theorem afterPCG_finished (o : Oracles) (opts : Trust_Region_Options)
    (constr : Constraints) (status : PCG_Status) (s2 : DriverState)
    (res : Trust_Region_Result) (st : DriverState)
    (h : afterPCG o opts constr status s2 = BodyResult.finished res st) :
    res.success = true ∧ st.hessian_is_up_to_date = true := by
  unfold afterPCG at h
  split at h
  · exact absurd h (noStepBranch_not_finished o s2 res st)
  · split at h
    · exact candidateBranch_finished o opts constr status.flag _ _ _ s2 res st h
    · simp at h

theorem trBody_not_hessFail (o : Oracles) (opts : Trust_Region_Options)
    (hs : ℕ) (constr : Constraints) (s : DriverState) :
    ¬ trBody o opts hs constr s = BodyResult.hessFail := by
  unfold trBody
  split
  · simp
  · split
    · simp
    · split
      · rename_i heq
        split at heq
        · rename_i hcond
          rw [hcond.2, make_hess_stale] at heq
          simp at heq
        · simp at heq
      · exact afterPCG_not_hessFail o opts constr _ _

/-- Any finished outcome of a loop pass either comes from the top failure
checks (state unchanged, success false) or reports success with a fresh
Hessian at the returned state. -/
theorem trBody_cases (o : Oracles) (opts : Trust_Region_Options) (hs : ℕ)
    (constr : Constraints) (s : DriverState) (res : Trust_Region_Result)
    (st : DriverState)
    (h : trBody o opts hs constr s = BodyResult.finished res st) :
    ((s.delta < opts.tol_step ∨ opts.max_iter < s.iter) ∧
        res = ⟨s.x, s.iter, s.delta, s.grad, false⟩ ∧ st = s) ∨
      (res.success = true ∧ st.hessian_is_up_to_date = true) := by
  unfold trBody at h
  split at h
  · rename_i hcond
    rw [BodyResult.finished.injEq] at h
    exact Or.inl ⟨Or.inl hcond, h.1.symm, h.2.symm⟩
  · split at h
    · rename_i hcond
      rw [BodyResult.finished.injEq] at h
      exact Or.inl ⟨Or.inr hcond, h.1.symm, h.2.symm⟩
    · split at h
      · simp at h
      · exact Or.inr (afterPCG_finished o opts constr _ _ res st h)

/-- When a top failure check fires the pass returns at once with the
current iterate, iteration count, radius and gradient, success false, and
the state unchanged. -/
theorem trBody_top (o : Oracles) (opts : Trust_Region_Options) (hs : ℕ)
    (constr : Constraints) (s : DriverState)
    (h : s.delta < opts.tol_step ∨ opts.max_iter < s.iter) :
    trBody o opts hs constr s =
      BodyResult.finished ⟨s.x, s.iter, s.delta, s.grad, false⟩ s := by
  unfold trBody
  rcases h with h | h
  · rw [if_pos h]
  · by_cases h1 : s.delta < opts.tol_step
    · rw [if_pos h1]
    · rw [if_neg h1, if_pos h]

theorem trRun_not_hessFail (o : Oracles) (opts : Trust_Region_Options)
    (hs : ℕ) (constr : Constraints) :
    ∀ (fuel : ℕ) (s : DriverState),
      ¬ trRun o opts hs constr fuel s = RunResult.hessFail := by
  intro fuel
  induction fuel with
  | zero => intro s; simp [trRun]
  | succ n ih =>
      intro s
      unfold trRun
      split
      · rename_i heq
        exact absurd heq (trBody_not_hessFail o opts hs constr s)
      · simp
      · simp
      · rename_i s1 heq
        exact ih s1

theorem trRun_success_fresh (o : Oracles) (opts : Trust_Region_Options)
    (hs : ℕ) (constr : Constraints) :
    ∀ (fuel : ℕ) (s : DriverState) (res : Trust_Region_Result)
      (st : DriverState),
      trRun o opts hs constr fuel s = RunResult.finished res st →
      res.success = true → st.hessian_is_up_to_date = true := by
  intro fuel
  induction fuel with
  | zero => intro s res st h _; simp [trRun] at h
  | succ n ih =>
      intro s res st h hsucc
      unfold trRun at h
      split at h
      · simp at h
      · simp at h
      · rename_i res1 st1 heq
        rw [RunResult.finished.injEq] at h
        obtain ⟨h1, h2⟩ := h
        rcases trBody_cases o opts hs constr s res1 st1 heq with
          ⟨_, hres, _⟩ | ⟨_, hfresh⟩
        · rw [← h1, hres] at hsucc
          exact absurd hsucc (by simp)
        · rw [← h2]
          exact hfresh
      · rename_i s1 heq
        exact ih s1 res st h hsucc

theorem trRun_failure (o : Oracles) (opts : Trust_Region_Options) (hs : ℕ)
    (constr : Constraints) :
    ∀ (fuel : ℕ) (s : DriverState) (res : Trust_Region_Result)
      (st : DriverState),
      trRun o opts hs constr fuel s = RunResult.finished res st →
      res.success = false →
      (st.delta < opts.tol_step ∨ opts.max_iter < st.iter) ∧
        res = ⟨st.x, st.iter, st.delta, st.grad, false⟩ := by
  intro fuel
  induction fuel with
  | zero => intro s res st h _; simp [trRun] at h
  | succ n ih =>
      intro s res st h hfalse
      unfold trRun at h
      split at h
      · simp at h
      · simp at h
      · rename_i res1 st1 heq
        rw [RunResult.finished.injEq] at h
        obtain ⟨h1, h2⟩ := h
        rcases trBody_cases o opts hs constr s res1 st1 heq with
          ⟨hc, hres, hst⟩ | ⟨hsucc, _⟩
        · rw [← h2, hst]
          rw [← h1, hres]
          exact ⟨hc, rfl⟩
        · rw [← h1] at hfalse
          rw [hfalse] at hsucc
          exact absurd hsucc (by simp)
      · rename_i s1 heq
        exact ih s1 res st h hfalse

theorem isHessFail_false (r : RunResult) (h : ¬ r = RunResult.hessFail) :
    isHessFail r = false := by
  cases r <;> simp_all [isHessFail]

/-! ## Claim theorems about the driver -/

/-- C3: whenever trust_region returns a result with success = true, the
state at the instant of return has hessian_is_up_to_date = true: every
success return site is guarded by the freshness flag. -/
theorem success_requires_fresh_hessian (o : Oracles)
    (opts : Trust_Region_Options) (x0 : List ℚ) (constr : Constraints)
    (fuel : ℕ) (res : Trust_Region_Result) (st : DriverState)
    (h : trust_region o opts x0 constr fuel = RunResult.finished res st)
    (hsucc : res.success = true) : st.hessian_is_up_to_date = true := by
  unfold trust_region at h
  simp only [make_hess_stale] at h
  by_cases hchk : check x0 constr = false
  · rw [if_pos hchk] at h
    exact absurd h (by simp)
  · rw [if_neg hchk] at h
    exact trRun_success_fresh o opts _ constr fuel _ res st h hsucc

unseal Rat.add Rat.sub Rat.mul Rat.inv in
/-- C3 witness: a concrete one-pass run that converges with success = true
and a fresh Hessian at the return state. -/
theorem success_requires_fresh_hessian_witness :
    resZero.success = true ∧ stZero.hessian_is_up_to_date = true :=
  ⟨rfl, success_requires_fresh_hessian oracleZero opts100 [0] cUnit 1
    resZero stZero (by decide) rfl⟩

/-- C10: the assertion inside make_hess (assert not hessian_is_up_to_date)
never fires on any execution of trust_region: every call site is guarded by
a stale flag, so no run ever ends in the hessFail outcome. -/
theorem make_hess_assert_safe (o : Oracles) (opts : Trust_Region_Options)
    (x0 : List ℚ) (constr : Constraints) (fuel : ℕ) :
    isHessFail (trust_region o opts x0 constr fuel) = false := by
  unfold trust_region
  simp only [make_hess_stale]
  by_cases hchk : check x0 constr = false
  · rw [if_pos hchk]
    rfl
  · rw [if_neg hchk]
    exact isHessFail_false _ (trRun_not_hessFail o opts _ constr fuel _)

/-- C8: a loop pass returns success = false exactly when one of the two top
checks fires (delta below tol_step, or iter beyond max_iter); in that case
it hands back the current iterate, count, radius and gradient unchanged;
these are the only success = false exits, so any success = false return of
trust_region carries the loop state of the pass whose top check fired. -/
theorem failure_exit_iff (o : Oracles) (opts : Trust_Region_Options)
    (hs : ℕ) (constr : Constraints) (s : DriverState) :
    ((s.delta < opts.tol_step ∨ opts.max_iter < s.iter) →
        trBody o opts hs constr s =
          BodyResult.finished ⟨s.x, s.iter, s.delta, s.grad, false⟩ s) ∧
      (∀ (res : Trust_Region_Result) (st : DriverState),
          trBody o opts hs constr s = BodyResult.finished res st →
          res.success = false →
          (s.delta < opts.tol_step ∨ opts.max_iter < s.iter) ∧
            res = ⟨s.x, s.iter, s.delta, s.grad, false⟩ ∧ st = s) ∧
      (∀ (x0 : List ℚ) (fuel : ℕ) (res : Trust_Region_Result)
          (st : DriverState),
          trust_region o opts x0 constr fuel = RunResult.finished res st →
          res.success = false →
          (st.delta < opts.tol_step ∨ opts.max_iter < st.iter) ∧
            res = ⟨st.x, st.iter, st.delta, st.grad, false⟩) := by
  refine ⟨trBody_top o opts hs constr s, ?_, ?_⟩
  · intro res st h hfalse
    rcases trBody_cases o opts hs constr s res st h with
      ⟨hc, hres, hst⟩ | ⟨hsucc, _⟩
    · exact ⟨hc, hres, hst⟩
    · rw [hfalse] at hsucc
      exact absurd hsucc (by simp)
  · intro x0 fuel res st h hfalse
    unfold trust_region at h
    simp only [make_hess_stale] at h
    by_cases hchk : check x0 constr = false
    · rw [if_pos hchk] at h
      exact absurd h (by simp)
    · rw [if_neg hchk] at h
      exact trRun_failure o opts _ constr fuel _ res st h hfalse

unseal Rat.add Rat.sub Rat.mul Rat.inv in
/-- C8 witness: a state whose radius is below tol_step exits at once with
success = false and the state unchanged. -/
theorem failure_exit_iff_witness :
    trBody oracleNoStep opts100 10 cUnit sTiny =
        BodyResult.finished resTiny sTiny ∧
      resTiny = ⟨sTiny.x, sTiny.iter, sTiny.delta, sTiny.grad, false⟩ := by
  have h := failure_exit_iff oracleNoStep opts100 10 cUnit sTiny
  have hd : sTiny.delta < opts100.tol_step ∨ opts100.max_iter < sTiny.iter :=
    Or.inl (by decide)
  have heq := h.1 hd
  exact ⟨heq, (h.2.1 resTiny sTiny heq rfl).2.1⟩

/-- C4 amended: in the no-step branch with a stale Hessian (and no deferred
refresh pending at the top of the pass), H is recomputed through make_hess,
which also sets hessian_is_up_to_date and DOES reset
times_after_hessian_shaking to 0 - the counter does not keep its value. -/
theorem no_step_stale_refreshes_and_resets (o : Oracles)
    (opts : Trust_Region_Options) (hs : ℕ) (constr : Constraints)
    (s : DriverState)
    (h1 : ¬ s.delta < opts.tol_step) (h2 : ¬ opts.max_iter < s.iter)
    (h3 : s.hessian_is_up_to_date = false)
    (h4 : s.times_after_hessian_shaking < hs)
    (h5 : (o.pcg s.grad.value s.H s._constr_shifted s.delta).x = none) :
    trBody o opts hs constr s = BodyResult.next { s with
      H := o.makeHessian s.x,
      hessian_is_up_to_date := true,
      iter := s.iter + 1,
      times_after_hessian_shaking := 0 } := by
  have hc : ¬ (hs ≤ s.times_after_hessian_shaking ∧
      s.hessian_is_up_to_date = false) :=
    fun hcc => absurd hcc.1 (not_le.mpr h4)
  unfold trBody
  rw [if_neg h1, if_neg h2]
  split
  · rename_i heq
    rw [if_neg hc] at heq
    simp at heq
  · rename_i s1 heq
    rw [if_neg hc, Option.some.injEq] at heq
    subst heq
    unfold afterPCG
    split
    · unfold noStepBranch
      split
      · rename_i hup
        simp [h3] at hup
      · simp [h3, make_hess]
    · rename_i px heq2
      rw [h5] at heq2
      simp at heq2

unseal Rat.add Rat.sub Rat.mul Rat.inv in
/-- C4 amended witness: the concrete stale state with counter 5 continues
with counter 0 and a fresh Hessian. -/
theorem no_step_stale_witness :
    sStale.hessian_is_up_to_date = false ∧
      trBody oracleNoStep opts100 10 cUnit sStale = BodyResult.next sStaleNext :=
  ⟨rfl, no_step_stale_refreshes_and_resets oracleNoStep opts100 10 cUnit sStale
    (by decide) (by decide) rfl (by decide) rfl⟩

unseal Rat.add Rat.sub Rat.mul Rat.inv in
/-- C4 counterexample: from the stale state with counter 5 the pass
continues with counter 0 (make_hess reset it), not with the incremented
value 6 that the claim predicts the branch keeps. -/
theorem no_step_counter_not_kept :
    trBody oracleNoStep opts100 10 cUnit sStale = BodyResult.next sStaleNext ∧
      ¬ trBody oracleNoStep opts100 10 cUnit sStale = BodyResult.next sStaleSpec :=
  ⟨by decide, by decide⟩

end Optimizer

